import Mathlib

/-!
Verification of the amazon-affiliate deal-checking scripts.

The development shallowly embeds the three JavaScript sources:
`check-deal-amazon-api.mjs` (the signed PA-API variant), `check-deals-keepa.mjs`
(the keyed Keepa variant), and the browser-driven scraper script.  JavaScript
numbers are modelled as exact rationals, nullable values as `Option`, and the
platform primitives the scripts call (crypto hashes, the WHATWG URL parser,
`parseFloat`) are either abstracted as parameters or modelled for the restricted
input shapes the scripts feed them, as noted at each definition.
-/

/-- Rounding to 2 decimal places, modelling the JavaScript idiom
`Number(x.toFixed(2))` (and `+x.toFixed(2)`) on the exact-rational abstraction
of JS numbers.  Ties round half-up, which agrees with `toFixed` away from
binary-representation corner cases. -/
def round2 (q : ℚ) : ℚ := ((round (q * 100) : ℤ) : ℚ) / 100

/-- Shared helper `fmtUsd(price)` from both API scripts:
`price == null ? null : Number(Number(price).toFixed(2))`. -/
def fmtUsd (price : Option ℚ) : Option ℚ :=
  match price with
  | none => none
  | some p => some (round2 p)

/-- Shared helper `pct(originalPrice, currentPrice)` from both API scripts:
`(originalPrice && currentPrice) ? ((originalPrice - currentPrice) / originalPrice) * 100 : 0`.
JS truthiness on a nullable number: `null` and `0` are falsy. -/
def pct (originalPrice currentPrice : Option ℚ) : ℚ :=
  match originalPrice, currentPrice with
  | some o, some c => if o ≠ 0 ∧ c ≠ 0 then (o - c) / o * 100 else 0
  | _, _ => 0

/-- Shared helper `chunk(arr, size)` from both API scripts:
`Array.from(\x7b length: Math.ceil(arr.length / size) \x7d, (_, i) => arr.slice(i * size, i * size + size))`.
For positive `size`, `Math.ceil(n / size)` is `(n + size - 1) / size` in ℕ. -/
def chunk {α : Type} (arr : List α) (size : ℕ) : List (List α) :=
  (List.range ((arr.length + size - 1) / size)).map fun i => (arr.drop (i * size)).take size

/-- JS `a || b` on nullable strings: `null` and the empty string are falsy. -/
def jsOrStr (a b : Option String) : Option String :=
  match a with
  | some s => if s = "" then b else some s
  | none => b

/-- JS truthiness of a nullable string (`!x` is the negation of this). -/
def jsFalsyStr : Option String → Bool
  | none => true
  | some s => s = ""

/-- Model of `Number.isFinite(x) && x > 0` on a nullable number: `null` and
`undefined` are not finite numbers, so only a present positive value passes. -/
def isPosPrice : Option ℚ → Bool
  | none => false
  | some q => decide (0 < q)

/-- Shared expression `(original && current) ? original - current : 0` from the
summarizers of both API scripts (JS truthiness: `null` and `0` are falsy). -/
def discountAmtJS (original current : Option ℚ) : ℚ :=
  match original, current with
  | some o, some c => if o ≠ 0 ∧ c ≠ 0 then o - c else 0
  | _, _ => 0

/-- Discount triple returned by `computeDiscount` in the browser-driven script. -/
structure DiscountResult where
  hasDiscount : Bool
  pct : Option ℚ
  save : Option ℚ
  deriving DecidableEq, Repr

/-- Function `computeDiscount(original, current)` from the browser-driven
script: both prices absent-checked first, then the `current >= original`
branch, then the discount branch with `toFixed(2)` rounding. -/
def computeDiscount (original current : Option ℚ) : DiscountResult :=
  match original, current with
  | none, _ => ⟨false, none, none⟩
  | _, none => ⟨false, none, none⟩
  | some o, some c =>
    if o ≤ c then ⟨false, some 0, some 0⟩
    else ⟨true, some (round2 ((o - c) / o * 100)), some (round2 (o - c))⟩

/-- Character class `[^\d.,]` complement used by `parsePriceText`: the kept
characters are digits, the dot and the comma. -/
def priceChar (c : Char) : Bool := c.isDigit || c = '.' || c = ','

/-- Model of `String.prototype.replace(',', '')` with a string (not regex)
pattern: it removes only the FIRST occurrence of the comma. -/
def removeFirstComma : List Char → List Char
  | [] => []
  | c :: cs => if c = ',' then cs else c :: removeFirstComma cs

/-- Numeric value of a digit list (most significant first). -/
def digitsVal (l : List Char) : ℕ :=
  l.foldl (fun n c => 10 * n + (c.toNat - '0'.toNat)) 0

/-- Model of the platform `parseFloat` restricted to strings over digits, dots
and commas (the only characters `parsePriceText` can feed it): it parses the
longest leading `digits [ '.' digits ]` chain, requiring at least one digit,
and is NaN (`none`) otherwise. -/
def jsParseFloat (l : List Char) : Option ℚ :=
  let intPart := l.takeWhile Char.isDigit
  let rest := l.dropWhile Char.isDigit
  match rest with
  | '.' :: rest2 =>
    let fracPart := rest2.takeWhile Char.isDigit
    if intPart = [] ∧ fracPart = [] then none
    else some ((digitsVal intPart : ℚ) + (digitsVal fracPart : ℚ) / (10 : ℚ) ^ fracPart.length)
  | _ => if intPart = [] then none else some ((digitsVal intPart : ℚ))

/-- Function `parsePriceText(text)` from the browser-driven script:
`if (!text) return null;` then strip `[^\d.,]`, `replace(',', '')` (first
comma only), `parseFloat`, and reject non-finite results.  No rounding is
applied here. -/
def parsePriceText (text : Option String) : Option ℚ :=
  match text with
  | none => none
  | some s =>
    if s = "" then none
    else jsParseFloat (removeFirstComma (s.toList.filter priceChar))

/-- Price Normalizer as claim C5 words it: strip all characters except digits,
dot and comma, remove ALL commas, parse as decimal, reject non-finite results,
and round every accepted value to 2 decimal places. -/
def claimPriceNormalizer (text : Option String) : Option ℚ :=
  match text with
  | none => none
  | some s =>
    if s = "" then none
    else
      match jsParseFloat ((s.toList.filter priceChar).filter (fun c => !(c = ','))) with
      | none => none
      | some v => some (round2 v)

/-- Amended Price Normalizer: same pipeline but only the first comma is
removed and the accepted value is returned unrounded, exactly as the code
does. -/
def amendedPriceNormalizer (text : Option String) : Option ℚ :=
  match text with
  | none => none
  | some s =>
    if s = "" then none
    else jsParseFloat (removeFirstComma (s.toList.filter priceChar))

/-- Canonical Deal Record row as written to the output JSON.  The PA-API
variant's rows carry no `AffiliateLink` key; that is modelled as `none`. -/
structure DealRow where
  ASIN : Option String
  Title : Option String
  Link : Option String
  Original : Option ℚ
  Current : Option ℚ
  Image : Option String
  NeedCheckManually : Bool
  HasDiscount : Bool
  DiscountPct : Option ℚ
  YouSave : Option ℚ
  AffiliateLink : Option String
  deriving DecidableEq, Repr

/-- Raw PA-API listing object (`Offers.Listings[i]`), reduced to the two
fields `summarizePA` reads. -/
structure PAListing where
  price : Option ℚ
  savingBasis : Option ℚ
  deriving DecidableEq, Repr

/-- Raw PA-API item (`ItemsResult.Items[i]`), reduced to the field paths
`summarizePA` reads. -/
structure PAItem where
  asin : Option String
  titleDisplayValue : Option String
  listings : List PAListing
  imageLargeURL : Option String
  detailPageURL : Option String
  deriving DecidableEq, Repr

/-- Field path `item.Offers?.Listings?.[0]?.Price?.Amount ?? null`. -/
def paCurrent (item : PAItem) : Option ℚ :=
  (item.listings.head?).bind PAListing.price

/-- Field path `item.Offers?.Listings?.[0]?.SavingBasis?.Amount ?? null`. -/
def paOriginal (item : PAItem) : Option ℚ :=
  (item.listings.head?).bind PAListing.savingBasis

/-- Intermediate summary record returned by `summarizePA`. -/
structure PASummary where
  asin : Option String
  title : Option String
  link : Option String
  original : Option ℚ
  current : Option ℚ
  discountPct : ℚ
  discountAmt : ℚ
  needCheckManually : Bool
  imageUrl : Option String
  hasDiscount : Bool
  deriving DecidableEq, Repr

/-- Function `summarizePA(item, linkFallback)` from `check-deal-amazon-api.mjs`. -/
def summarizePA (item : PAItem) (linkFallback : Option String) : PASummary :=
  let current := paCurrent item
  let original := paOriginal item
  { asin := item.asin
    title := jsOrStr item.titleDisplayValue item.asin
    link := jsOrStr item.detailPageURL (jsOrStr linkFallback
      (match item.asin with
       | some a => if a = "" then none else some ("https://www.amazon.com/dp/" ++ a)
       | none => none))
    original := original
    current := current
    discountPct := pct original current
    discountAmt := discountAmtJS original current
    needCheckManually := !(isPosPrice current) || !(isPosPrice original)
    imageUrl := jsOrStr item.imageLargeURL none
    hasDiscount := decide (0 < discountAmtJS original current) }

/-- Output-row construction from `processTxtFile` in `check-deal-amazon-api.mjs`:
`Title: r.title || r.asin`, `Original/Current/YouSave` through `fmtUsd`, and
`DiscountPct: r.discountPct != null ? Number(r.discountPct.toFixed(2)) : null`
(the summary's `discountPct` is always a number, hence always kept). -/
def paDealRow (r : PASummary) : DealRow :=
  { ASIN := r.asin
    Title := jsOrStr r.title r.asin
    Link := r.link
    Original := fmtUsd r.original
    Current := fmtUsd r.current
    Image := r.imageUrl
    NeedCheckManually := r.needCheckManually
    HasDiscount := r.hasDiscount
    DiscountPct := some (round2 r.discountPct)
    YouSave := fmtUsd (some r.discountAmt)
    AffiliateLink := none }

/-- Keepa per-item statistics, reduced to the two arrays `summarizeKeepa`
reads; entries are `none` where Keepa delivers `null`/missing slots. -/
structure KeepaStats where
  current : List (Option ℚ)
  avg90 : List (Option ℚ)
  deriving DecidableEq, Repr

/-- Raw Keepa product record, reduced to the field paths `summarizeKeepa` and
`getKeepaImageUrl` read (`imageName` models `images?.[0]?.['l']`). -/
structure KeepaProduct where
  asin : String
  title : Option String
  stats : Option KeepaStats
  imageName : Option String
  deriving DecidableEq, Repr

/-- JS optional-index access `arr?.[i]` on an array of nullable numbers. -/
def jsIdx (l : List (Option ℚ)) (i : ℕ) : Option ℚ := (l.get? i).bind id

/-- JS nullish coalescing `a ?? b` on nullable numbers. -/
def jsNullish (a b : Option ℚ) : Option ℚ :=
  match a with
  | some q => some q
  | none => b

/-- Field path `product.stats?.current?.[0]` (the current price, minor units). -/
def keepaCur (p : KeepaProduct) : Option ℚ :=
  match p.stats with
  | none => none
  | some s => jsIdx s.current 0

/-- Field path `product.stats?.current?.[4]` (the list price, minor units). -/
def keepaListPrice (p : KeepaProduct) : Option ℚ :=
  match p.stats with
  | none => none
  | some s => jsIdx s.current 4

/-- Field path `product.stats?.avg90?.[0]` (90-day average, minor units). -/
def keepaAvg90 (p : KeepaProduct) : Option ℚ :=
  match p.stats with
  | none => none
  | some s => jsIdx s.avg90 0

/-- Function `keepaToUSD(p)` from `check-deals-keepa.mjs`:
`(!Number.isFinite(p) || p <= 0) ? null : Number((p / 100).toFixed(2))`. -/
def keepaToUSD (p : Option ℚ) : Option ℚ :=
  match p with
  | none => none
  | some q => if q ≤ 0 then none else some (round2 (q / 100))

/-- Function `buildAffiliateLink(asin)` from `check-deals-keepa.mjs`, with the
environment-sourced tag and domain passed explicitly. -/
def buildAffiliateLink (affTag affDomain asin : String) : String :=
  if affTag = "" then "https://" ++ affDomain ++ "/dp/" ++ asin
  else "https://" ++ affDomain ++ "/dp/" ++ asin ++ "?tag=" ++ affTag

/-- Function `getKeepaImageUrl(product)` from `check-deals-keepa.mjs` at the
default size, reading the modelled `imageName` field. -/
def getKeepaImageUrl (imageName : Option String) : Option String :=
  match imageName with
  | none => none
  | some n => if n = "" then none else some ("https://m.media-amazon.com/images/I/" ++ n)

/-- Intermediate summary record returned by `summarizeKeepa`. -/
structure KeepaSummary where
  asin : String
  title : Option String
  link : Option String
  original : Option ℚ
  current : Option ℚ
  discountPct : ℚ
  discountAmt : ℚ
  needCheckManually : Bool
  imageUrl : Option String
  hasDiscount : Bool
  affiliateLink : String
  deriving DecidableEq, Repr

/-- Function `summarizeKeepa(product, link)` from `check-deals-keepa.mjs`.
Note `needCheckManually` is computed from the raw `stats.current[4]` value
(`hasO`) while `original` applies the `o ?? avg ?? null` fallback. -/
def summarizeKeepa (affTag affDomain : String) (product : KeepaProduct)
    (link : Option String) : KeepaSummary :=
  let c := keepaCur product
  let o := keepaListPrice product
  let avg := keepaAvg90 product
  let current := keepaToUSD c
  let original := keepaToUSD (jsNullish o (jsNullish avg none))
  { asin := product.asin
    title := jsOrStr product.title (some product.asin)
    link := link
    original := original
    current := current
    discountPct := pct original current
    discountAmt := discountAmtJS original current
    needCheckManually := !(isPosPrice c) || !(isPosPrice o)
    imageUrl := getKeepaImageUrl product.imageName
    hasDiscount := decide (0 < discountAmtJS original current)
    affiliateLink := buildAffiliateLink affTag affDomain product.asin }

/-- Character class `[A-Z0-9]` under the `i` regex flag: ASCII letters and
digits. -/
def asinChar (c : Char) : Bool := c.isAlphanum

/-- The `[A-Z0-9]\x7b10\x7d` capture: the next 10 characters when they are all
alphanumeric (no right boundary is required by the `m1` pattern). -/
def take10Alnum (l : List Char) : Option (List Char) :=
  let cap := l.take 10
  if cap.length = 10 ∧ cap.all asinChar then some cap else none

/-- Case-insensitive literal match at the head of the input; returns the
remaining input on success. -/
def litAt : List Char → List Char → Option (List Char)
  | [], rest => some rest
  | _, [] => none
  | p :: ps, c :: cs => if c.toLower = p.toLower then litAt ps cs else none

/-- The four alternatives of the `m1` regex
`\/(?:dp|gp\/product|gp\/aw\/d|gp\/offer-listing)\/`, in source order. -/
def dpLits : List (List Char) :=
  ["/dp/".toList, "/gp/product/".toList, "/gp/aw/d/".toList, "/gp/offer-listing/".toList]

/-- Try each alternative literal at the current position, in order, and on a
literal match require the 10-alphanumeric capture (regex backtracking tries
the next alternative at the same position when the capture fails). -/
def altCapAt (lits : List (List Char)) (l : List Char) : Option (List Char) :=
  match lits with
  | [] => none
  | p :: ps =>
    match litAt p l with
    | some rest =>
      match take10Alnum rest with
      | some cap => some cap
      | none => altCapAt ps l
    | none => altCapAt ps l

/-- Leftmost regex match: scan start positions left to right. -/
def scanCap (lits : List (List Char)) : List Char → Option (List Char)
  | [] => none
  | c :: cs =>
    match altCapAt lits (c :: cs) with
    | some cap => some cap
    | none => scanCap lits cs

/-- Match of the `m2` regex `\/([A-Z0-9]\x7b10\x7d)(?:[/?#]|$)` at one start
position: a slash, ten alphanumerics, then a boundary. -/
def seg10At (l : List Char) : Option (List Char) :=
  match l with
  | '/' :: rest =>
    (match take10Alnum rest with
     | some cap =>
       match rest.drop 10 with
       | [] => some cap
       | b :: _ => if b = '/' ∨ b = '?' ∨ b = '#' then some cap else none
     | none => none)
  | _ => none

/-- Leftmost match of the `m2` regex. -/
def scanSeg10 : List Char → Option (List Char)
  | [] => none
  | c :: cs =>
    match seg10At (c :: cs) with
    | some cap => some cap
    | none => scanSeg10 cs

/-- Uppercase a captured group, as `.toUpperCase()` does. -/
def upper10 (cap : List Char) : String := String.mk (cap.map Char.toUpper)

/-- JS `s.toUpperCase()` (character-wise on the code points involved here). -/
def strUpper (s : String) : String := String.mk (s.toList.map Char.toUpper)

/-- JS `s.toLowerCase()` (character-wise on the code points involved here). -/
def strLower (s : String) : String := String.mk (s.toList.map Char.toLower)

/-- Parsed URL, reduced to the two projections `extractASIN` reads. -/
structure URLParts where
  pathname : String
  searchParams : List (String × String)
  deriving DecidableEq, Repr

/-- Split the input at the first `://`, yielding the part before and after. -/
def findSchemeSep : List Char → Option (List Char × List Char)
  | [] => none
  | ':' :: '/' :: '/' :: rest => some ([], rest)
  | c :: cs =>
    match findSchemeSep cs with
    | some (pre, post) => some (c :: pre, post)
    | none => none

/-- URL scheme shape: a letter followed by letters, digits, `+`, `-`, `.`. -/
def schemeOK (l : List Char) : Bool :=
  match l with
  | [] => false
  | c :: cs => c.isAlpha && cs.all (fun d => d.isAlphanum || d = '+' || d = '-' || d = '.')

/-- Characters that may appear in the authority component. -/
def authChar (c : Char) : Bool := !(c = '/' || c = '?' || c = '#')

/-- WHATWG `+`-to-space decoding applied by `URLSearchParams`. -/
def plusToSpace (c : Char) : Char := if c = '+' then ' ' else c

/-- One `name=value` piece of a query string, split at the first `=`. -/
def paramOfPiece (p : List Char) : String × String :=
  let name := p.takeWhile (fun c => !(c = '='))
  let value :=
    match p.dropWhile (fun c => !(c = '=')) with
    | _ :: v => v
    | [] => []
  (String.mk (name.map plusToSpace), String.mk (value.map plusToSpace))

/-- Query-string parsing as `URLSearchParams` does: split on `&`, drop empty
pieces, split each piece at its first `=`. -/
def parseQuery (q : List Char) : List (String × String) :=
  ((q.splitOn '&').filter (fun p => !(p.isEmpty))).map paramOfPiece

/-- Modelled from the platform: the WHATWG `new URL(url)` constructor for
absolute URLs of the simple shape `scheme://host[/path][?query][#fragment]`
(the only shapes the scripts' inputs take); any other shape is modelled as the
constructor throwing (`none`).  Percent-decoding is not modelled; the inputs
considered contain no escapes. -/
def parseURL (url : String) : Option URLParts :=
  match findSchemeSep url.toList with
  | none => none
  | some (scheme, after) =>
    if schemeOK scheme = false then none
    else
      let host := after.takeWhile authChar
      let rest := after.dropWhile authChar
      if host.isEmpty then none
      else
        let pathChars := rest.takeWhile (fun c => !(c = '?' || c = '#'))
        let rest2 := rest.dropWhile (fun c => !(c = '?' || c = '#'))
        let query :=
          match rest2 with
          | '?' :: q => q.takeWhile (fun c => !(c = '#'))
          | _ => []
        some { pathname := if pathChars.isEmpty then "/" else String.mk pathChars
               searchParams := parseQuery query }

/-- JS `searchParams.get(name)`: the first value recorded under exactly that
name, or `null`. -/
def getParam (ps : List (String × String)) (name : String) : Option String :=
  match ps.find? (fun p => p.1 = name) with
  | some p => some p.2
  | none => none

/-- Test of `/^[A-Z0-9]\x7b10\x7d$/i` on a query value. -/
def asinShape (s : String) : Bool := s.length = 10 && s.toList.all asinChar

/-- Function `extractASIN(url)` as it appears, identically, in both
`check-deal-amazon-api.mjs` and `check-deals-keepa.mjs`: URL parse, then the
`m1` path regex, the `m2` bare-segment regex, the `asin`/`ASIN` query
parameter, and on a parse failure the `m1`-equivalent raw-text regex. -/
def extractASIN (url : String) : Option String :=
  match parseURL url with
  | some u =>
    (match scanCap dpLits u.pathname.toList with
     | some cap => some (upper10 cap)
     | none =>
       match scanSeg10 u.pathname.toList with
       | some cap => some (upper10 cap)
       | none =>
         match jsOrStr (getParam u.searchParams "asin") (getParam u.searchParams "ASIN") with
         | some qp => if asinShape qp then some (strUpper qp) else none
         | none => none)
  | none =>
    match scanCap dpLits url.toList with
    | some cap => some (upper10 cap)
    | none => none

/-- Identifier Extractor as claim C4 words it: identical staging, except that
rule 3 accepts a query parameter whose NAME matches `asin` case-insensitively
and whose value matches `^[A-Z0-9]\x7b10\x7d$` as written (upper case only). -/
def claimExtractASIN (url : String) : Option String :=
  match parseURL url with
  | some u =>
    (match scanCap dpLits u.pathname.toList with
     | some cap => some (upper10 cap)
     | none =>
       match scanSeg10 u.pathname.toList with
       | some cap => some (upper10 cap)
       | none =>
         match u.searchParams.find? (fun p => strLower p.1 = "asin") with
         | some p =>
           if p.2.length = 10 && p.2.toList.all (fun c => c.isUpper || c.isDigit)
           then some (strUpper p.2) else none
         | none => none)
  | none =>
    match scanCap dpLits url.toList with
    | some cap => some (upper10 cap)
    | none => none

/-- Amended rule 1: the `/dp/`, `/gp/product/`, `/gp/aw/d/`, `/gp/offer-listing/`
path pattern, uppercasing the capture. -/
def amendedRule1 (pathname : String) : Option String :=
  (scanCap dpLits pathname.toList).map upper10

/-- Amended rule 2: a bare 10-alphanumeric path segment bounded by `/`, `?`,
`#` or end, uppercasing the capture. -/
def amendedRule2 (pathname : String) : Option String :=
  (scanSeg10 pathname.toList).map upper10

/-- Amended rule 3: the query parameter named exactly `asin` or, when that is
absent or empty, exactly `ASIN` (JS `||`), whose value matches
`^[A-Z0-9]\x7b10\x7d$` case-insensitively, uppercased. -/
def amendedRule3 (ps : List (String × String)) : Option String :=
  match jsOrStr (getParam ps "asin") (getParam ps "ASIN") with
  | some qp => if qp.length = 10 && qp.toList.all asinChar then some (strUpper qp) else none
  | none => none

/-- Amended rule 4: on URL parse failure, rule 1's pattern applied to the raw
string by text search. -/
def amendedRule4 (url : String) : Option String :=
  (scanCap dpLits url.toList).map upper10

/-- Identifier Extractor as amended: rules 1-3 in order on a parsed URL, and
rule 4 alone when URL parsing fails. -/
def amendedExtractASIN (url : String) : Option String :=
  match parseURL url with
  | some u =>
    ((amendedRule1 u.pathname).orElse fun _ =>
      (amendedRule2 u.pathname).orElse fun _ =>
        amendedRule3 u.searchParams)
  | none => amendedRule4 url

/-- Function `extractASINFromUrl(url)` from the browser-driven script: only the
`/dp/` and `/gp/product/` patterns, tried one after the other on the raw
string, and the captured group is returned WITHOUT uppercasing. -/
def extractASINFromUrl (url : String) : Option String :=
  match scanCap ["/dp/".toList] url.toList with
  | some cap => some (String.mk cap)
  | none =>
    match scanCap ["/gp/product/".toList] url.toList with
    | some cap => some (String.mk cap)
    | none => none

/-- Identifier Registry built by `processTxtFile` (identical in both API
scripts): `asinToLink`, `asins`, `asinSeen` and `duplicates`, with the JS
`Map`s modelled as insertion-ordered association lists. -/
structure Registry where
  asinToLink : List (String × String)
  asins : List String
  asinSeen : List (String × ℕ)
  duplicates : List (String × ℕ × ℕ)
  deriving DecidableEq, Repr

/-- JS `Map.get` on the modelled association list (keys are unique by
construction, so first-match lookup is the map lookup). -/
def lookupSeen : List (String × ℕ) → String → Option ℕ
  | [], _ => none
  | p :: ps, a => if p.1 = a then some p.2 else lookupSeen ps a

/-- Body of the `lines.forEach((url, idx) => ...)` duplicate-detection loop of
`processTxtFile`: skip inextractable lines, record a duplicate conflict for an
already-seen identifier, otherwise register identifier, line number and
first-seen reference. -/
def regStep (reg : Registry) (idx : ℕ) (url : String) : Registry :=
  match extractASIN url with
  | none => reg
  | some a =>
    match lookupSeen reg.asinSeen a with
    | some n => { reg with duplicates := reg.duplicates ++ [(a, n, idx + 1)] }
    | none =>
      { asinToLink := reg.asinToLink ++ [(a, url)]
        asins := reg.asins ++ [a]
        asinSeen := reg.asinSeen ++ [(a, idx + 1)]
        duplicates := reg.duplicates }

/-- The `forEach` loop over the input lines, threading the 0-based index. -/
def regGo (reg : Registry) (idx : ℕ) : List String → Registry
  | [] => reg
  | u :: us => regGo (regStep reg idx u) (idx + 1) us

/-- Registry construction of `processTxtFile` over the trimmed non-blank
input lines. -/
def buildRegistry (lines : List String) : Registry := regGo ⟨[], [], [], []⟩ 0 lines

/-- First-seen dedup accumulator (specification side, following claim C7's
words): keep each element at its first occurrence, in order. -/
def firstSeenGo (acc : List String) : List String → List String
  | [] => []
  | a :: as => if a ∈ acc then firstSeenGo acc as else a :: firstSeenGo (acc ++ [a]) as

/-- First-seen dedup of a list (specification side). -/
def firstSeenList (l : List String) : List String := firstSeenGo [] l

/-- Specification side: the extractable identifiers of the input, each kept
once at its first occurrence in first-seen order. -/
def extractedIds (lines : List String) : List String :=
  firstSeenList (lines.filterMap extractASIN)

/-- Specification side: the 1-based number of the first line yielding the
identifier. -/
def firstLine (lines : List String) (a : String) : ℕ :=
  lines.findIdx (fun u => decide (extractASIN u = some a)) + 1

/-- Specification side: the first-seen reference for the identifier. -/
def firstRef (lines : List String) (a : String) : String :=
  (lines.find? (fun u => decide (extractASIN u = some a))).getD ""

/-- Specification side: each registered identifier paired with its 1-based
first-seen line number. -/
def specSeen (lines : List String) : List (String × ℕ) :=
  (extractedIds lines).map (fun a => (a, firstLine lines a))

/-- Specification side: each registered identifier paired with its first-seen
reference. -/
def specLinks (lines : List String) : List (String × String) :=
  (extractedIds lines).map (fun a => (a, firstRef lines a))

/-- Specification side: one duplicate record per later occurrence of an
already-registered identifier, carrying the identifier, the
originally-registered 1-based line and the current 1-based line. -/
def specDups (lines : List String) : List (String × ℕ × ℕ) :=
  (lines.enum).filterMap (fun p =>
    match extractASIN p.2 with
    | none => none
    | some a =>
      if (lines.take p.1).any (fun v => decide (extractASIN v = some a))
      then some (a, firstLine lines a, p.1 + 1) else none)

/-- Rate limiter step, modelling `throttlePaapi`/`throttleKeepa` with an exact
sleep on an ideal monotone clock: given the recorded start `lastFetchAt` and
the clock value `now` at entry, if `now - lastFetchAt < interval` the caller
suspends for the difference and the re-read `Date.now()` shows
`lastFetchAt + interval`; otherwise the new recorded start is `now`. -/
def throttleStep (interval lastFetchAt now : ℕ) : ℕ :=
  if now - lastFetchAt < interval then lastFetchAt + interval else now

/-- Recorded call-start times over a run of batch calls whose entry clock
values are `nows`, threading the module-level `lastFetchAt`. -/
def throttleRun (interval last : ℕ) : List ℕ → List ℕ
  | [] => []
  | now :: nows =>
    throttleStep interval last now :: throttleRun interval (throttleStep interval last now) nows

/-- Final `lastFetchAt` value after a run of batch calls. -/
def throttleLast (interval last : ℕ) : List ℕ → ℕ
  | [] => last
  | now :: nows => throttleLast interval (throttleStep interval last now) nows

/-- Recorded call-start times over several files processed in one run: the
module-level `lastFetchAt` carries over from file to file, never reset. -/
def throttleRunFiles (interval last : ℕ) : List (List ℕ) → List ℕ
  | [] => []
  | f :: fs => throttleRun interval last f ++ throttleRunFiles interval (throttleLast interval last f) fs

/-- Abstract cryptographic primitives used by `buildAuthHeaders`: `utf8`
models `Buffer.from(s, 'utf8')`, `hmacBytes` models
`crypto.createHmac('sha256', key).update(data).digest()`, `hmacHex` the same
with `.digest('hex')`, and `sha256Hex` models
`crypto.createHash('sha256').update(data).digest('hex')`. -/
structure CryptoPrims (B : Type) where
  utf8 : String → B
  hmacBytes : B → String → B
  hmacHex : B → String → String
  sha256Hex : String → String

/-- Request descriptor returned by `buildAuthHeaders`. -/
structure SignedRequest where
  method : String
  headers : List (String × String)
  body : String

/-- Function `buildAuthHeaders(\x7baccessKey, secretKey, region, service, host,
amzTarget, path, payload\x7d)` from `check-deal-amazon-api.mjs`.  `content` is
the serialized JSON payload (`JSON.stringify(payload)`) and `amzDate` the
`YYYYMMDDThhmmssZ` request timestamp the code derives from `new Date()`;
`dateStamp` is its first 8 characters. -/
def buildAuthHeaders {B : Type} (C : CryptoPrims B)
    (accessKey secretKey region service host amzTarget path content amzDate : String) :
    SignedRequest :=
  let dateStamp := amzDate.take 8
  let canonicalHeaders :=
    "content-encoding:amz-1.0\ncontent-type:application/json; charset=utf-8\nhost:"
      ++ host ++ "\nx-amz-date:" ++ amzDate ++ "\nx-amz-target:" ++ amzTarget ++ "\n"
  let signedHeaders := "content-encoding;content-type;host;x-amz-date;x-amz-target"
  let canonicalRequest :=
    "POST" ++ "\n" ++ path ++ "\n" ++ "" ++ "\n" ++ canonicalHeaders ++ "\n"
      ++ signedHeaders ++ "\n" ++ C.sha256Hex content
  let algorithm := "AWS4-HMAC-SHA256"
  let credentialScope := dateStamp ++ "/" ++ region ++ "/" ++ service ++ "/aws4_request"
  let stringToSign :=
    algorithm ++ "\n" ++ amzDate ++ "\n" ++ credentialScope ++ "\n" ++ C.sha256Hex canonicalRequest
  let kDate := C.hmacBytes (C.utf8 ("AWS4" ++ secretKey)) dateStamp
  let kRegion := C.hmacBytes kDate region
  let kService := C.hmacBytes kRegion service
  let kSigning := C.hmacBytes kService "aws4_request"
  let signature := C.hmacHex kSigning stringToSign
  let authHeader :=
    algorithm ++ " Credential=" ++ accessKey ++ "/" ++ credentialScope
      ++ ", SignedHeaders=" ++ signedHeaders ++ ", Signature=" ++ signature
  { method := "POST"
    headers :=
      [("content-encoding", "amz-1.0"),
       ("content-type", "application/json; charset=utf-8"),
       ("host", host),
       ("x-amz-date", amzDate),
       ("x-amz-target", amzTarget),
       ("Authorization", authHeader)]
    body := content }

/-- Exact literal match at the head of the input (case-sensitive). -/
def litAtExact : List Char → List Char → Bool
  | [], _ => true
  | _, [] => false
  | p :: ps, c :: cs => p = c && litAtExact ps cs

/-- Substring scan underlying JS `String.prototype.includes`. -/
def hasSub (sub : List Char) : List Char → Bool
  | [] => litAtExact sub []
  | c :: cs => litAtExact sub (c :: cs) || hasSub sub cs

/-- JS `s.includes(sub)`. -/
def jsIncludes (s sub : String) : Bool := hasSub sub.toList s.toList

/-- Record built by `scrapeAmazonProduct` in the browser-driven script, from
the extracted ASIN and the page-renderer collaborator's outputs: the trimmed
title text (`null`-collapsed by `|| null`), the current- and original-price
locator texts, and the screenshot path. -/
def scrapeRecord (url : String) (asin rawTitle currentText originalText pictureRef : Option String)
    (affTag : String) : DealRow :=
  let title := jsOrStr rawTitle none
  let current := parsePriceText currentText
  let original0 := parsePriceText originalText
  let original := if original0 = none ∧ current ≠ none then current else original0
  let d := computeDiscount original current
  let needCheck :=
    jsFalsyStr title || jsFalsyStr pictureRef
      || decide (original = none) || decide (current = none) || decide (asin = none)
  let affiliateLink :=
    match asin with
    | some a =>
      if a = "" then none
      else if affTag = "" then some ("https://www.amazon.com/dp/" ++ a)
      else some ("https://www.amazon.com/dp/" ++ a ++ "?tag=" ++ affTag)
    | none => none
  { ASIN := asin
    Title := title
    Link := some url
    Original := original
    Current := current
    Image := pictureRef
    NeedCheckManually := needCheck
    HasDiscount := d.hasDiscount
    DiscountPct := d.pct
    YouSave := d.save
    AffiliateLink := affiliateLink }

/-- Pass-through record pushed by the browser-driven `main` when a line's
processing throws (URL construction or scrape failure): only the ASIN is
re-extracted from the raw line. -/
def catchRow (url : String) : DealRow :=
  { ASIN := extractASINFromUrl url
    Title := none
    Link := some url
    Original := none
    Current := none
    Image := none
    NeedCheckManually := true
    HasDiscount := false
    DiscountPct := none
    YouSave := none
    AffiliateLink := none }

/-- Pass-through record pushed by the browser-driven `main` when the parsed
hostname does not contain `amazon.`. -/
def nonAmazonRow (url : String) : DealRow :=
  { ASIN := none
    Title := none
    Link := some url
    Original := none
    Current := none
    Image := none
    NeedCheckManually := true
    HasDiscount := false
    DiscountPct := none
    YouSave := none
    AffiliateLink := none }

/-- Records pushed for one line of the browser-driven `main` loop, as a
function of that iteration's external interactions: `none` models
`new URL(url)` throwing; `some (host, none)` models `scrapeAmazonProduct`
throwing after the hostname was read; `some (host, some (row, waitThrew))`
models the scrape returning `row`, which is pushed immediately, with
`waitThrew` recording whether the follow-up `page.waitForTimeout` inside the
same `try` then rejected - in that case the `catch` pushes a second,
pass-through record for the same line.  The non-Amazon branch `continue`s
before the scrape and the wait, so it always pushes exactly one record. -/
def lineRecords (url : String) (oc : Option (String × Option (DealRow × Bool))) :
    List DealRow :=
  match oc with
  | none => [catchRow url]
  | some (host, res) =>
    if jsIncludes host "amazon." = false then [nonAmazonRow url]
    else
      match res with
      | none => [catchRow url]
      | some (row, waitThrew) => if waitThrew then [row, catchRow url] else [row]

/-- The browser-driven `main` loop body over all URLs: each iteration's
records are pushed in order (`oracle i url` supplies iteration `i`'s external
outcomes). -/
def processUrls (oracle : ℕ → String → Option (String × Option (DealRow × Bool)))
    (urls : List String) : List DealRow :=
  (urls.enum.map (fun p => lineRecords p.2 (oracle p.1 p.2))).flatten

/-- JS `String.prototype.trim` on a line: strip leading and trailing
whitespace (the inputs here contain only ASCII whitespace). -/
def jsTrim (l : List Char) : String :=
  String.mk (((l.dropWhile Char.isWhitespace).reverse.dropWhile Char.isWhitespace).reverse)

/-- Input-line splitting of the browser-driven `main`:
`txt.split(/\r?\n/).map(l => l.trim()).filter(l => l.length > 0)`, modelled
as a split on `'\n'` - the trim also removes the carriage return the regex
would have consumed. -/
def nonBlankLines (txt : String) : List String :=
  ((txt.toList.splitOn '\n').map jsTrim).filter (fun s => s.length > 0)

/-- Final sort of the browser-driven `main`:
`deals.sort((a, b) => (b.DiscountPct ?? 0) - (a.DiscountPct ?? 0))`, a
descending sort on the percentage with `null` treated as 0. -/
def sortDeals (rows : List DealRow) : List DealRow :=
  rows.mergeSort (fun a b => decide (b.DiscountPct.getD 0 ≤ a.DiscountPct.getD 0))

/-- The browser-driven `main` from input text to the final `deals.json`
array. -/
def scrapeMain (oracle : ℕ → String → Option (String × Option (DealRow × Bool)))
    (txt : String) : List DealRow :=
  sortDeals (processUrls oracle (nonBlankLines txt))

theorem chunk_nil {α : Type} (size : ℕ) : chunk ([] : List α) size = [] := by
  unfold chunk
  have h0 : (([] : List α).length + size - 1) / size = 0 := by
    simp only [List.length_nil, Nat.zero_add]
    rcases Nat.eq_zero_or_pos size with h | h
    · subst h; rfl
    · exact Nat.div_eq_of_lt (by omega)
  rw [h0]
  rfl

theorem chunk_count_step (n size : ℕ) (hs : 0 < size) (hn : 0 < n) :
    (n + size - 1) / size = ((n - size) + size - 1) / size + 1 := by
  rcases le_or_lt size n with h | h
  · have h1 : n + size - 1 = ((n - size) + size - 1) + size := by omega
    rw [h1, Nat.add_div_right _ hs]
  · have h1 : n + size - 1 = (n - 1) + size := by omega
    rw [h1, Nat.add_div_right _ hs, Nat.div_eq_of_lt (show n - 1 < size by omega),
      Nat.div_eq_of_lt (show (n - size) + size - 1 < size by omega)]

theorem chunk_cons {α : Type} (arr : List α) (size : ℕ) (hs : 0 < size)
    (hne : arr ≠ []) : chunk arr size = arr.take size :: chunk (arr.drop size) size := by
  have hn : 0 < arr.length := List.length_pos.mpr hne
  unfold chunk
  have hcount : (arr.length + size - 1) / size
      = ((arr.drop size).length + size - 1) / size + 1 := by
    rw [List.length_drop]
    exact chunk_count_step arr.length size hs hn
  rw [hcount, List.range_succ_eq_map, List.map_cons, List.map_map]
  congr 1
  · simp
  · apply List.map_congr_left
    intro i _
    simp only [Function.comp_apply]
    rw [List.drop_drop]
    congr 2
    rw [Nat.succ_mul, Nat.add_comm]

theorem chunk_flatten_aux {α : Type} (size : ℕ) (hs : 0 < size) :
    ∀ (n : ℕ) (arr : List α), arr.length ≤ n → (chunk arr size).flatten = arr
  | 0, arr, h => by
    have : arr = [] := List.length_eq_zero.mp (by omega)
    simp [this, chunk_nil]
  | n + 1, arr, h => by
    rcases eq_or_ne arr [] with rfl | hne
    · simp [chunk_nil]
    · rw [chunk_cons arr size hs hne, List.flatten_cons,
        chunk_flatten_aux size hs n (arr.drop size)
          (by have := List.length_pos.mpr hne; simp [List.length_drop]; omega)]
      exact List.take_append_drop size arr

/-- C8: for every input list and positive batch size `M`, `chunk` produces
contiguous slices each of length at most `M`, whose lengths sum to the input
length and whose concatenation reconstructs the input exactly; empty input
yields empty output. -/
theorem chunk_spec {α : Type} (arr : List α) (M : ℕ) (hM : 0 < M) :
    (chunk arr M).flatten = arr
    ∧ (∀ b ∈ chunk arr M, b.length ≤ M)
    ∧ ((chunk arr M).map List.length).sum = arr.length
    ∧ chunk ([] : List α) M = [] := by
  have hflat : (chunk arr M).flatten = arr :=
    chunk_flatten_aux M hM arr.length arr le_rfl
  refine ⟨hflat, ?_, ?_, chunk_nil M⟩
  · intro b hb
    rcases List.mem_map.mp hb with ⟨i, _, rfl⟩
    exact List.length_take_le M (arr.drop (i * M))
  · rw [← List.length_flatten, hflat]

/-- Witness for C8 at a concrete input: three items in batches of two. -/
theorem chunk_spec_witness : (chunk [1, 2, 3] 2).flatten = [1, 2, 3] :=
  (chunk_spec [1, 2, 3] 2 (by decide)).1

/-- C1: for every credential set and request timestamp, `buildAuthHeaders`
produces a POST request descriptor carrying the given JSON body, whose
Authorization header is exactly
`<algorithm> Credential=<accessKey>/<credentialScope>, SignedHeaders=<signedHeaders>, Signature=<signature>`,
where the signature is the hex HMAC-SHA-256, under the key obtained by
chaining HMAC-SHA-256 from `AWS4`+secretKey over the date stamp, then the
region, the service and the literal `aws4_request`, of the string-to-sign
built from the algorithm id, the timestamp, the credential scope and the hex
SHA-256 of the canonical request: method, path, empty query, the five sorted
lower-cased headers each newline-terminated, the signed-headers list joined
by `;`, and the hex SHA-256 of the JSON body. -/
theorem buildAuthHeaders_spec {B : Type} (C : CryptoPrims B)
    (accessKey secretKey region service host amzTarget path content amzDate : String) :
    (buildAuthHeaders C accessKey secretKey region service host amzTarget path content amzDate).method
        = "POST"
    ∧ (buildAuthHeaders C accessKey secretKey region service host amzTarget path content amzDate).body
        = content
    ∧ (buildAuthHeaders C accessKey secretKey region service host amzTarget path content amzDate).headers.lookup
          "Authorization"
        = some ("AWS4-HMAC-SHA256"
            ++ " Credential=" ++ accessKey ++ "/"
            ++ (amzDate.take 8 ++ "/" ++ region ++ "/" ++ service ++ "/aws4_request")
            ++ ", SignedHeaders=" ++ "content-encoding;content-type;host;x-amz-date;x-amz-target"
            ++ ", Signature="
            ++ C.hmacHex
                (C.hmacBytes
                  (C.hmacBytes
                    (C.hmacBytes (C.hmacBytes (C.utf8 ("AWS4" ++ secretKey)) (amzDate.take 8)) region)
                    service)
                  "aws4_request")
                ("AWS4-HMAC-SHA256" ++ "\n" ++ amzDate ++ "\n"
                  ++ (amzDate.take 8 ++ "/" ++ region ++ "/" ++ service ++ "/aws4_request") ++ "\n"
                  ++ C.sha256Hex
                      ("POST" ++ "\n" ++ path ++ "\n" ++ "" ++ "\n"
                        ++ ("content-encoding:amz-1.0\ncontent-type:application/json; charset=utf-8\nhost:"
                            ++ host ++ "\nx-amz-date:" ++ amzDate ++ "\nx-amz-target:" ++ amzTarget ++ "\n")
                        ++ "\n" ++ "content-encoding;content-type;host;x-amz-date;x-amz-target" ++ "\n"
                        ++ C.sha256Hex content))) := by
  refine ⟨rfl, rfl, ?_⟩
  rfl

/-- C2 (amended): the Discount Calculator rule as claimed holds for the
browser-variant `computeDiscount`: either price absent gives
(false, null, null); current at least original gives (false, 0, 0); current
below original gives hasDiscount with the rounded percentage and amount. -/
theorem computeDiscount_spec (o c : Option ℚ) :
    ((o = none ∨ c = none) → computeDiscount o c = ⟨false, none, none⟩)
    ∧ (∀ a b : ℚ, o = some a → c = some b → a ≤ b →
        computeDiscount o c = ⟨false, some 0, some 0⟩)
    ∧ (∀ a b : ℚ, o = some a → c = some b → b < a →
        computeDiscount o c
          = ⟨true, some (round2 ((a - b) / a * 100)), some (round2 (a - b))⟩) := by
  refine ⟨?_, ?_, ?_⟩
  · rintro (rfl | rfl)
    · cases c <;> rfl
    · cases o <;> rfl
  · rintro a b rfl rfl hab
    simp only [computeDiscount, if_pos hab]
  · rintro a b rfl rfl hba
    simp only [computeDiscount, if_neg (not_le.mpr hba)]

/-- Witness for C2's theorem at a concrete discounted pair. -/
theorem computeDiscount_spec_witness :
    computeDiscount (some 10) (some 4)
      = ⟨true, some (round2 ((10 - 4) / 10 * 100)), some (round2 (10 - 4))⟩ :=
  (computeDiscount_spec (some 10) (some 4)).2.2 10 4 rfl rfl (by norm_num)

/-- C2 counterexample: in the PA-API variant, a Deal Record with an absent
original price carries DiscountPct 0 and YouSave 0, not null, because `pct`
and the amount expression return the number 0 when either price is falsy. -/
theorem discount_claim_cex :
    (paDealRow (summarizePA ⟨some "B000000001", some "T", [⟨some 5, none⟩], some "I", some "L"⟩
        (some "F"))).Original = none
    ∧ (paDealRow (summarizePA ⟨some "B000000001", some "T", [⟨some 5, none⟩], some "I", some "L"⟩
        (some "F"))).DiscountPct = some 0
    ∧ (paDealRow (summarizePA ⟨some "B000000001", some "T", [⟨some 5, none⟩], some "I", some "L"⟩
        (some "F"))).YouSave = some 0 := by
  have h0 : round2 0 = 0 := by norm_num [round2]
  have h1 : (paDealRow (summarizePA ⟨some "B000000001", some "T", [⟨some 5, none⟩], some "I", some "L"⟩
      (some "F"))).DiscountPct = some (round2 0) := rfl
  have h2 : (paDealRow (summarizePA ⟨some "B000000001", some "T", [⟨some 5, none⟩], some "I", some "L"⟩
      (some "F"))).YouSave = some (round2 0) := rfl
  exact ⟨rfl, h1.trans (by rw [h0]), h2.trans (by rw [h0])⟩

/-- C5 counterexample: on `1,2,3.4` the code removes only the first comma and
`parseFloat` stops at the remaining one, yielding 12, while the claimed
pipeline (all commas removed) yields 123.4; and on `2.346` the code returns
the unrounded 2.346 while the claim demands the 2-decimal rounding 2.35. -/
theorem parsePriceText_claim_cex :
    parsePriceText (some "1,2,3.4") = some 12
    ∧ claimPriceNormalizer (some "1,2,3.4") = some (617 / 5)
    ∧ parsePriceText (some "2.346") = some (1173 / 500)
    ∧ claimPriceNormalizer (some "2.346") = some (47 / 20) := by
  have h1 : claimPriceNormalizer (some "1,2,3.4") = some (round2 ((123 : ℚ) + 4 / 10 ^ (1 : ℕ))) := by
    rfl
  have e1 : round2 ((123 : ℚ) + 4 / 10 ^ (1 : ℕ)) = 617 / 5 := by norm_num [round2, round_eq]
  have h2 : claimPriceNormalizer (some "2.346") = some (round2 ((2 : ℚ) + 346 / 10 ^ (3 : ℕ))) := by
    rfl
  have e2 : round2 ((2 : ℚ) + 346 / 10 ^ (3 : ℕ)) = 47 / 20 := by norm_num [round2, round_eq]
  have h3 : parsePriceText (some "2.346") = some ((2 : ℚ) + 346 / 10 ^ (3 : ℕ)) := by rfl
  have e3 : ((2 : ℚ) + 346 / 10 ^ (3 : ℕ)) = 1173 / 500 := by norm_num
  exact ⟨by decide, h1.trans (by rw [e1]), h3.trans (by rw [e3]), h2.trans (by rw [e2])⟩

/-- C5 (amended): the Price Normalizer strips all characters except digits,
dot and comma, removes the FIRST comma only, parses the remainder as a
decimal (longest valid numeric chain, NaN gives absent) and returns accepted
values unrounded; falsy input (`null` or the empty string) gives absent. -/
theorem parsePriceText_amended :
    parsePriceText none = none
    ∧ parsePriceText (some "") = none
    ∧ (∀ s : String, s ≠ "" →
        parsePriceText (some s) = jsParseFloat (removeFirstComma (s.toList.filter priceChar))) := by
  refine ⟨rfl, rfl, fun s hs => ?_⟩
  simp [parsePriceText, hs]

/-- Witness for C5's amended theorem at a concrete price text. -/
theorem parsePriceText_amended_witness :
    parsePriceText (some "$12.50")
      = jsParseFloat (removeFirstComma ("$12.50".toList.filter priceChar)) :=
  parsePriceText_amended.2.2 "$12.50" (by decide)

/-- Helper: `throttleStep` never records a start earlier than the previous
recorded start plus the interval. -/
theorem throttleStep_ge (I : ℕ) (hI : 0 < I) (last now : ℕ) :
    last + I ≤ throttleStep I last now := by
  unfold throttleStep
  split <;> omega

/-- Helper: consecutive recorded starts in one run are at least the interval
apart. -/
theorem throttleRun_chain (I : ℕ) (hI : 0 < I) :
    ∀ (last : ℕ) (nows : List ℕ),
      List.Chain (fun a b => a + I ≤ b) last (throttleRun I last nows)
  | _, [] => List.Chain.nil
  | last, now :: nows =>
    List.Chain.cons (throttleStep_ge I hI last now)
      (throttleRun_chain I hI (throttleStep I last now) nows)

/-- Helper: running the limiter over concatenated call lists threads the
recorded timestamp through. -/
theorem throttleRun_append (I : ℕ) :
    ∀ (last : ℕ) (xs ys : List ℕ),
      throttleRun I last (xs ++ ys)
        = throttleRun I last xs ++ throttleRun I (throttleLast I last xs) ys
  | _, [], _ => rfl
  | last, x :: xs, ys => by
    simp only [List.cons_append, throttleRun, throttleLast]
    exact congrArg _ (throttleRun_append I (throttleStep I last x) xs ys)

/-- Helper: per-file processing with the shared module-level timestamp equals
one flat run over all batch calls of the whole run. -/
theorem throttleRunFiles_eq (I : ℕ) :
    ∀ (last : ℕ) (files : List (List ℕ)),
      throttleRunFiles I last files = throttleRun I last files.flatten
  | _, [] => rfl
  | last, f :: fs => by
    simp only [throttleRunFiles, List.flatten_cons]
    rw [throttleRun_append, throttleRunFiles_eq I (throttleLast I last f) fs]

/-- C6: for every two consecutive outbound batch calls in one run the recorded
call start times are at least the configured interval apart (the chain starts
at the previously recorded timestamp), and the limiter state is one
process-wide value threaded across all batches and files of the run, never
reset per file: processing the files one after the other equals one flat run
over the concatenation of their batch calls. -/
theorem throttle_spec (I : ℕ) (hI : 0 < I) (last : ℕ) (nows : List ℕ)
    (files : List (List ℕ)) :
    List.Chain (fun a b => a + I ≤ b) last (throttleRun I last nows)
    ∧ throttleRunFiles I last files = throttleRun I last files.flatten :=
  ⟨throttleRun_chain I hI last nows, throttleRunFiles_eq I last files⟩

/-- Witness for C6 at a concrete run: interval 1250ms, two quick batch calls
across two files. -/
theorem throttle_spec_witness :
    List.Chain (fun a b => a + 1250 ≤ b) 0 (throttleRun 1250 0 [100, 200]) :=
  (throttle_spec 1250 (by decide) 0 [100, 200] [[100], [200]]).1

/-- C10: when the Keepa list-price field `stats.current[4]` is absent,
`summarizeKeepa` takes the original price from the 90-day average
`stats.avg90[0]` through the minor-unit conversion `keepaToUSD`, yet
`needsManualCheck` is still true because it is computed from the raw
list-price field before the fallback. -/
theorem summarizeKeepa_fallback (affTag affDomain : String) (product : KeepaProduct)
    (link : Option String) (s : KeepaStats) (hs : product.stats = some s)
    (ho : jsIdx s.current 4 = none) :
    (summarizeKeepa affTag affDomain product link).original = keepaToUSD (jsIdx s.avg90 0)
    ∧ (summarizeKeepa affTag affDomain product link).needCheckManually = true := by
  constructor
  · cases havg : jsIdx s.avg90 0 <;>
      simp [summarizeKeepa, keepaListPrice, keepaAvg90, hs, ho, havg, jsNullish]
  · simp [summarizeKeepa, keepaListPrice, hs, ho, isPosPrice]

/-- Witness for C10 at a concrete Keepa product with a missing list price and
a 90-day average of 1000 minor units. -/
theorem summarizeKeepa_fallback_witness :
    (summarizeKeepa "t" "www.amazon.com"
        ⟨"B000000001", some "T", some ⟨[some 500, none, none, none, none], [some 1000]⟩, some "i"⟩
        (some "L")).original
      = keepaToUSD (jsIdx [some 1000] 0)
    ∧ (summarizeKeepa "t" "www.amazon.com"
        ⟨"B000000001", some "T", some ⟨[some 500, none, none, none, none], [some 1000]⟩, some "i"⟩
        (some "L")).needCheckManually = true :=
  summarizeKeepa_fallback "t" "www.amazon.com" _ (some "L")
    ⟨[some 500, none, none, none, none], [some 1000]⟩ rfl rfl

/-- Helper: a `|| null`-collapsed string is JS-falsy exactly when it is
`null`. -/
theorem jsFalsyStr_jsOrStr_none (x : Option String) :
    jsFalsyStr (jsOrStr x none) = true ↔ jsOrStr x none = none := by
  cases x with
  | none => simp [jsOrStr, jsFalsyStr]
  | some s => by_cases hs : s = "" <;> simp [jsOrStr, jsFalsyStr, hs]

/-- Helper: a nullable string that is never the empty string is JS-falsy
exactly when it is `null`. -/
theorem jsFalsyStr_iff_none (x : Option String) (hx : x ≠ some "") :
    jsFalsyStr x = true ↔ x = none := by
  cases x with
  | none => simp [jsFalsyStr]
  | some s =>
    have hs : s ≠ "" := fun h => hx (by rw [h])
    simp [jsFalsyStr, hs]

/-- C3 (amended): in the browser-driven variant the `NeedCheckManually` flag
is true exactly when any of title, image, original price, current price or
identifier is absent (the screenshot path is never the empty string); in the
API variants the flag depends only on the raw current and original price
fields, true exactly when either is absent or non-positive. -/
theorem needCheck_amended :
    (∀ (url : String) (asin rawTitle currentText originalText pictureRef : Option String)
        (affTag : String), pictureRef ≠ some "" →
      ((scrapeRecord url asin rawTitle currentText originalText pictureRef affTag).NeedCheckManually
          = true
        ↔ ((scrapeRecord url asin rawTitle currentText originalText pictureRef affTag).Title = none
          ∨ (scrapeRecord url asin rawTitle currentText originalText pictureRef affTag).Image = none
          ∨ (scrapeRecord url asin rawTitle currentText originalText pictureRef affTag).Original = none
          ∨ (scrapeRecord url asin rawTitle currentText originalText pictureRef affTag).Current = none
          ∨ (scrapeRecord url asin rawTitle currentText originalText pictureRef affTag).ASIN = none)))
    ∧ (∀ (item : PAItem) (linkFallback : Option String),
        (summarizePA item linkFallback).needCheckManually = true
          ↔ (isPosPrice (paCurrent item) = false ∨ isPosPrice (paOriginal item) = false))
    ∧ (∀ (affTag affDomain : String) (product : KeepaProduct) (link : Option String),
        (summarizeKeepa affTag affDomain product link).needCheckManually = true
          ↔ (isPosPrice (keepaCur product) = false ∨ isPosPrice (keepaListPrice product) = false)) := by
  refine ⟨?_, ?_, ?_⟩
  · intro url asin rawTitle currentText originalText pictureRef affTag hp
    simp only [scrapeRecord, Bool.or_eq_true, decide_eq_true_eq,
      jsFalsyStr_jsOrStr_none, jsFalsyStr_iff_none pictureRef hp]
    tauto
  · intro item linkFallback
    simp [summarizePA, Bool.or_eq_true, Bool.not_eq_true']
  · intro affTag affDomain product link
    simp [summarizeKeepa, Bool.or_eq_true, Bool.not_eq_true']

/-- Witness for C3's amended theorem at a concrete fully-populated scrape. -/
theorem needCheck_amended_witness :
    (scrapeRecord "u" (some "B000000001") (some "T") (some "$5.00") (some "$10.00")
        (some "s.png") "").NeedCheckManually = true
      ↔ ((scrapeRecord "u" (some "B000000001") (some "T") (some "$5.00") (some "$10.00")
            (some "s.png") "").Title = none
        ∨ (scrapeRecord "u" (some "B000000001") (some "T") (some "$5.00") (some "$10.00")
            (some "s.png") "").Image = none
        ∨ (scrapeRecord "u" (some "B000000001") (some "T") (some "$5.00") (some "$10.00")
            (some "s.png") "").Original = none
        ∨ (scrapeRecord "u" (some "B000000001") (some "T") (some "$5.00") (some "$10.00")
            (some "s.png") "").Current = none
        ∨ (scrapeRecord "u" (some "B000000001") (some "T") (some "$5.00") (some "$10.00")
            (some "s.png") "").ASIN = none) :=
  needCheck_amended.1 "u" (some "B000000001") (some "T") (some "$5.00") (some "$10.00")
    (some "s.png") "" (by decide)

/-- C3 counterexample: in the PA-API variant a Deal Record with both prices
present but no image has `NeedCheckManually = false` although the image is
absent, contradicting the claimed rule. -/
theorem needCheck_claim_cex :
    (paDealRow (summarizePA ⟨some "B000000001", some "W", [⟨some 5, some 10⟩], none, some "L"⟩
        none)).Image = none
    ∧ (paDealRow (summarizePA ⟨some "B000000001", some "W", [⟨some 5, some 10⟩], none, some "L"⟩
        none)).NeedCheckManually = false := by
  exact ⟨rfl, by decide⟩

/-- Helper: every iteration of the browser-driven loop pushes at least one
record. -/
theorem lineRecords_ne_nil (url : String) (oc : Option (String × Option (DealRow × Bool))) :
    1 ≤ (lineRecords url oc).length := by
  rcases oc with _ | ⟨host, _ | ⟨row, w⟩⟩
  · simp [lineRecords]
  · by_cases h : jsIncludes host "amazon." = false <;> simp [lineRecords, h]
  · by_cases h : jsIncludes host "amazon." = false
    · simp [lineRecords, h]
    · cases w <;> simp [lineRecords, h]

/-- Helper: a list of nonempty lists has at least one element per list in its
flattening. -/
theorem length_le_sum_lengths {α : Type} :
    ∀ L : List (List α), (∀ x ∈ L, 1 ≤ x.length) → L.length ≤ (L.map List.length).sum
  | [], _ => by simp
  | x :: xs, h => by
    have hx := h x (List.mem_cons_self x xs)
    have hxs := length_le_sum_lengths xs (fun y hy => h y (List.mem_cons_of_mem x hy))
    simp only [List.length_cons, List.map_cons, List.sum_cons]
    omega

/-- C9 counterexample: a single non-blank Amazon line whose scrape succeeds
and whose follow-up `page.waitForTimeout` (still inside the `try`) then
rejects makes the loop push two records for that one line - the scraped
record and the catch pass-through - so the final output has 2 records for 1
input line, falsifying the claimed length equality. -/
theorem scrapeMain_claim_cex :
    (scrapeMain
        (fun _ _ => some ("www.amazon.com",
          some ((⟨some "B000000001", some "T", some "L", some 10, some 5, some "I",
            false, true, some 50, some 5, none⟩ : DealRow), true)))
        "https://www.amazon.com/dp/B000000001").length = 2
    ∧ (nonBlankLines "https://www.amazon.com/dp/B000000001").length = 1 := by
  constructor
  · rw [scrapeMain, sortDeals, List.length_mergeSort]
    decide
  · decide

/-- C9 (amended): in the browser-driven variant no input line is ever
silently dropped - each non-blank line contributes its iteration's records in
order, at least one per line, so the final output has at least as many
records as non-blank lines; a line yields exactly one record in every case
(URL-construction throw, non-Amazon host, scrape throw, clean scrape) except
when the scrape succeeds and the follow-up wait inside the same `try`
rejects, in which case the line yields two records: the scraped record plus a
catch pass-through.  Both pass-throughs have `NeedCheckManually` true,
`HasDiscount` false and null title, prices and image. -/
theorem scrapeMain_spec (oracle : ℕ → String → Option (String × Option (DealRow × Bool)))
    (txt : String) :
    processUrls oracle (nonBlankLines txt)
        = ((nonBlankLines txt).enum.map (fun p => lineRecords p.2 (oracle p.1 p.2))).flatten
    ∧ (nonBlankLines txt).length ≤ (scrapeMain oracle txt).length
    ∧ (∀ url : String, lineRecords url none = [catchRow url])
    ∧ (∀ (url host : String) (res : Option (DealRow × Bool)),
        jsIncludes host "amazon." = false →
          lineRecords url (some (host, res)) = [nonAmazonRow url])
    ∧ (∀ (url host : String), jsIncludes host "amazon." = true →
        lineRecords url (some (host, none)) = [catchRow url])
    ∧ (∀ (url host : String) (row : DealRow), jsIncludes host "amazon." = true →
        lineRecords url (some (host, some (row, false))) = [row])
    ∧ (∀ (url host : String) (row : DealRow), jsIncludes host "amazon." = true →
        lineRecords url (some (host, some (row, true))) = [row, catchRow url])
    ∧ (∀ url : String,
        (catchRow url).NeedCheckManually = true ∧ (catchRow url).HasDiscount = false
        ∧ (catchRow url).Title = none ∧ (catchRow url).Original = none
        ∧ (catchRow url).Current = none ∧ (catchRow url).Image = none)
    ∧ (∀ url : String,
        (nonAmazonRow url).NeedCheckManually = true ∧ (nonAmazonRow url).HasDiscount = false
        ∧ (nonAmazonRow url).Title = none ∧ (nonAmazonRow url).Original = none
        ∧ (nonAmazonRow url).Current = none ∧ (nonAmazonRow url).Image = none
        ∧ (nonAmazonRow url).ASIN = none) := by
  refine ⟨rfl, ?_, fun url => rfl, ?_, ?_, ?_, ?_,
    fun url => ⟨rfl, rfl, rfl, rfl, rfl, rfl⟩, fun url => ⟨rfl, rfl, rfl, rfl, rfl, rfl, rfl⟩⟩
  · have h1 : (scrapeMain oracle txt).length
        = (processUrls oracle (nonBlankLines txt)).length := by
      rw [scrapeMain, sortDeals, List.length_mergeSort]
    rw [h1, processUrls, List.length_flatten]
    have h2 : ((nonBlankLines txt).enum.map
        (fun p => lineRecords p.2 (oracle p.1 p.2))).length = (nonBlankLines txt).length := by
      simp [List.enum_length]
    have h3 := length_le_sum_lengths
      ((nonBlankLines txt).enum.map (fun p => lineRecords p.2 (oracle p.1 p.2)))
      (fun x hx => by
        rcases List.mem_map.mp hx with ⟨p, _, rfl⟩
        exact lineRecords_ne_nil p.2 (oracle p.1 p.2))
    omega
  · intro url host res h
    simp [lineRecords, h]
  · intro url host h
    simp [lineRecords, h]
  · intro url host row h
    simp [lineRecords, h]
  · intro url host row h
    simp [lineRecords, h]

/-- Witness for C9 at a concrete Amazon line whose scrape succeeds and whose
follow-up wait rejects: the line yields two records. -/
theorem scrapeMain_spec_witness :
    lineRecords "https://www.amazon.com/dp/B000000001"
        (some ("www.amazon.com", some ((⟨some "B000000001", some "T", some "L", some 10,
          some 5, some "I", false, true, some 50, some 5, none⟩ : DealRow), true)))
      = [(⟨some "B000000001", some "T", some "L", some 10, some 5, some "I",
          false, true, some 50, some 5, none⟩ : DealRow),
         catchRow "https://www.amazon.com/dp/B000000001"] :=
  (scrapeMain_spec (fun _ _ => none) "").2.2.2.2.2.2.1 "https://www.amazon.com/dp/B000000001"
    "www.amazon.com"
    (⟨some "B000000001", some "T", some "L", some 10, some 5, some "I",
      false, true, some 50, some 5, none⟩ : DealRow) (by decide)

/-- C4 counterexample: the code reads only the parameters named exactly
`asin` or `ASIN`, so a parameter named `Asin` with a valid value extracts
nothing although the claimed case-insensitive rule 3 would accept it; and the
code tests the value case-insensitively, so a lower-case value extracts
(uppercased) although the claimed pattern `^[A-Z0-9]\x7b10\x7d$` would reject
it; additionally the browser-variant extractor returns its capture without
uppercasing. -/
theorem extractASIN_claim_cex :
    extractASIN "https://example.com/a?Asin=B000000001" = none
    ∧ claimExtractASIN "https://example.com/a?Asin=B000000001" = some "B000000001"
    ∧ extractASIN "https://example.com/a?asin=b000000001" = some "B000000001"
    ∧ claimExtractASIN "https://example.com/a?asin=b000000001" = none
    ∧ extractASINFromUrl "https://x.com/dp/b000000001" = some "b000000001" := by
  exact ⟨by decide, by decide, by decide, by decide, by decide⟩

/-- C4 (amended): the API-variant extractor applies, in order, the path
pattern rule, the bare 10-alphanumeric segment rule, the query-parameter rule
restricted to the exact names `asin` then `ASIN` with a case-insensitive
value test, and on URL parse failure the path pattern on the raw string; the
browser-variant extractor applies only the `/dp/` then `/gp/product/`
patterns on the raw string and returns the capture without uppercasing.
Neither extractor can throw (both are total functions). -/
theorem extractASIN_amended (url : String) :
    extractASIN url = amendedExtractASIN url
    ∧ extractASINFromUrl url
        = ((scanCap ["/dp/".toList] url.toList).map String.mk).orElse
            (fun _ => (scanCap ["/gp/product/".toList] url.toList).map String.mk) := by
  constructor
  · cases hu : parseURL url with
    | none =>
      cases hs : scanCap dpLits url.toList <;>
        simp only [extractASIN, amendedExtractASIN, amendedRule4, hu, hs, Option.map]
    | some u =>
      cases h1 : scanCap dpLits u.pathname.toList with
      | some cap =>
        simp only [extractASIN, amendedExtractASIN, amendedRule1, hu, h1, Option.map,
          Option.orElse]
      | none =>
        cases h2 : scanSeg10 u.pathname.toList with
        | some cap =>
          simp only [extractASIN, amendedExtractASIN, amendedRule1, amendedRule2, hu, h1, h2,
            Option.map, Option.orElse]
        | none =>
          cases h3 : jsOrStr (getParam u.searchParams "asin") (getParam u.searchParams "ASIN") with
          | none =>
            simp only [extractASIN, amendedExtractASIN, amendedRule1, amendedRule2, amendedRule3,
              hu, h1, h2, h3, Option.map, Option.orElse]
          | some qp =>
            simp only [extractASIN, amendedExtractASIN, amendedRule1, amendedRule2, amendedRule3,
              hu, h1, h2, h3, Option.map, Option.orElse, asinShape]
  · cases hd : scanCap ["/dp/".toList] url.toList with
    | some cap => simp only [extractASINFromUrl, hd, Option.map, Option.orElse]
    | none =>
      cases hg : scanCap ["/gp/product/".toList] url.toList <;>
        simp only [extractASINFromUrl, hd, hg, Option.map, Option.orElse]

/-- Helper: appending one line to the input runs one more `regStep` at the
0-based index equal to the previous length. -/
theorem regGo_append : ∀ (reg : Registry) (idx : ℕ) (us : List String) (u : String),
    regGo reg idx (us ++ [u]) = regStep (regGo reg idx us) (idx + us.length) u
  | _, _, [], _ => rfl
  | reg, idx, v :: vs, u => by
    simp only [List.cons_append, regGo, List.length_cons, List.append_eq]
    rw [regGo_append (regStep reg idx v) (idx + 1) vs u]
    have h : idx + 1 + vs.length = idx + (vs.length + 1) := by omega
    rw [h]

/-- Helper: the registry of a snoc input is one `regStep` on the registry of
the base input. -/
theorem buildRegistry_snoc (l : List String) (u : String) :
    buildRegistry (l ++ [u]) = regStep (buildRegistry l) l.length u := by
  unfold buildRegistry
  rw [regGo_append, Nat.zero_add]

/-- Helper: membership in the first-seen dedup accumulator. -/
theorem mem_firstSeenGo : ∀ (acc xs : List String) (a : String),
    a ∈ firstSeenGo acc xs ↔ a ∈ xs ∧ a ∉ acc
  | acc, [], a => by simp [firstSeenGo]
  | acc, x :: xs, a => by
    by_cases hx : x ∈ acc
    · simp only [firstSeenGo, if_pos hx, mem_firstSeenGo acc xs a, List.mem_cons]
      by_cases hax : a = x
      · subst hax
        simp [hx]
      · simp [hax]
    · simp only [firstSeenGo, if_neg hx, List.mem_cons, mem_firstSeenGo (acc ++ [x]) xs a,
        List.mem_append, List.mem_singleton]
      by_cases hax : a = x
      · subst hax
        simp [hx]
      · simp only [hax, false_or]
        tauto

/-- Helper: first-seen dedup of a snoc keeps the list unless the new element
is genuinely new, in which case it is appended. -/
theorem firstSeenGo_snoc : ∀ (acc xs : List String) (b : String),
    firstSeenGo acc (xs ++ [b])
      = if b ∈ acc ∨ b ∈ xs then firstSeenGo acc xs else firstSeenGo acc xs ++ [b]
  | acc, [], b => by
    by_cases hb : b ∈ acc <;> simp [firstSeenGo, hb]
  | acc, x :: xs, b => by
    by_cases hx : x ∈ acc
    · simp only [List.cons_append, firstSeenGo, if_pos hx, List.append_eq,
        firstSeenGo_snoc acc xs b, List.mem_cons]
      by_cases hbx : b = x
      · subst hbx
        simp [hx]
      · simp [hbx]
    · simp only [List.cons_append, firstSeenGo, if_neg hx, List.append_eq,
        firstSeenGo_snoc (acc ++ [x]) xs b]
      have hiff : (b ∈ acc ++ [x] ∨ b ∈ xs) ↔ (b ∈ acc ∨ b ∈ x :: xs) := by
        simp only [List.mem_append, List.mem_singleton, List.mem_cons]
        tauto
      by_cases hb : b ∈ acc ∨ b ∈ x :: xs
      · rw [if_pos (hiff.mpr hb), if_pos hb]
      · rw [if_neg (fun h => hb (hiff.mp h)), if_neg hb]

/-- Helper: membership in the first-seen dedup. -/
theorem mem_firstSeenList (xs : List String) (a : String) :
    a ∈ firstSeenList xs ↔ a ∈ xs := by
  simp [firstSeenList, mem_firstSeenGo]

/-- Helper: first-seen dedup of a snoc. -/
theorem firstSeenList_snoc (xs : List String) (b : String) :
    firstSeenList (xs ++ [b])
      = if b ∈ xs then firstSeenList xs else firstSeenList xs ++ [b] := by
  have h := firstSeenGo_snoc [] xs b
  simpa [firstSeenList] using h

/-- Helper: `findIdx` over an append when the first part contains a hit. -/
theorem findIdx_append_pos {α : Type} (p : α → Bool) :
    ∀ (l1 l2 : List α), l1.any p = true → (l1 ++ l2).findIdx p = l1.findIdx p
  | [], _, h => by simp at h
  | x :: xs, l2, h => by
    cases hx : p x with
    | true => simp [List.findIdx_cons, hx]
    | false =>
      have hany : xs.any p = true := by simpa [List.any_cons, hx] using h
      simp [List.findIdx_cons, hx, findIdx_append_pos p xs l2 hany]

/-- Helper: `findIdx` over an append when the first part has no hit. -/
theorem findIdx_append_neg {α : Type} (p : α → Bool) :
    ∀ (l1 l2 : List α), l1.any p = false → (l1 ++ l2).findIdx p = l1.length + l2.findIdx p
  | [], l2, _ => by simp
  | x :: xs, l2, h => by
    have hx : p x = false := by
      cases hpx : p x
      · rfl
      · simp [List.any_cons, hpx] at h
    have hany : xs.any p = false := by
      cases hxs : xs.any p
      · rfl
      · simp [List.any_cons, hxs] at h
    simp only [List.cons_append, List.findIdx_cons, hx, cond_false, List.length_cons,
      findIdx_append_neg p xs l2 hany]
    omega

/-- Helper: `find?` over an append when the first part contains a hit. -/
theorem find?_append_pos {α : Type} (p : α → Bool) :
    ∀ (l1 l2 : List α), l1.any p = true → (l1 ++ l2).find? p = l1.find? p
  | [], _, h => by simp at h
  | x :: xs, l2, h => by
    cases hx : p x with
    | true => simp [List.find?_cons, hx]
    | false =>
      have hany : xs.any p = true := by simpa [List.any_cons, hx] using h
      simp [List.find?_cons, hx, find?_append_pos p xs l2 hany]

/-- Helper: `find?` over an append when the first part has no hit. -/
theorem find?_append_neg {α : Type} (p : α → Bool) :
    ∀ (l1 l2 : List α), l1.any p = false → (l1 ++ l2).find? p = l2.find? p
  | [], _, _ => by simp
  | x :: xs, l2, h => by
    have hx : p x = false := by
      cases hpx : p x
      · rfl
      · simp [List.any_cons, hpx] at h
    have hany : xs.any p = false := by
      cases hxs : xs.any p
      · rfl
      · simp [List.any_cons, hxs] at h
    simp [List.find?_cons, hx, find?_append_neg p xs l2 hany]

/-- Helper: lookup in an association list built by pairing keys with a
function of the key. -/
theorem lookupSeen_map (f : String → ℕ) :
    ∀ (ids : List String) (b : String),
      lookupSeen (ids.map fun a => (a, f a)) b = if b ∈ ids then some (f b) else none
  | [], b => by simp [lookupSeen]
  | a :: ids, b => by
    by_cases hab : a = b
    · subst hab
      simp [lookupSeen]
    · simp [lookupSeen, hab, lookupSeen_map f ids b, List.mem_cons, Ne.symm hab]

/-- Helper: an extractable hit among the lines is exactly membership in the
extracted identifiers. -/
theorem any_extract_iff (lines : List String) (a : String) :
    (lines.any fun v => decide (extractASIN v = some a)) = true
      ↔ a ∈ lines.filterMap extractASIN := by
  simp [List.any_eq_true, List.mem_filterMap]

/-- Helper: the first line of an already-present identifier is unchanged by
appending a line. -/
theorem firstLine_append_of_mem (l : List String) (u : String) (a : String)
    (h : a ∈ l.filterMap extractASIN) : firstLine (l ++ [u]) a = firstLine l a := by
  unfold firstLine
  rw [findIdx_append_pos _ l [u] ((any_extract_iff l a).mpr h)]

/-- Helper: the first line of an identifier introduced by the appended line is
that line's 1-based number. -/
theorem firstLine_append_new (l : List String) (u : String) (a : String)
    (hE : extractASIN u = some a) (h : a ∉ l.filterMap extractASIN) :
    firstLine (l ++ [u]) a = l.length + 1 := by
  have hany : (l.any fun v => decide (extractASIN v = some a)) = false := by
    cases hval : (l.any fun v => decide (extractASIN v = some a))
    · rfl
    · exact absurd ((any_extract_iff l a).mp hval) h
  unfold firstLine
  rw [findIdx_append_neg _ l [u] hany]
  simp [List.findIdx_cons, hE]

/-- Helper: the first reference of an already-present identifier is unchanged
by appending a line. -/
theorem firstRef_append_of_mem (l : List String) (u : String) (a : String)
    (h : a ∈ l.filterMap extractASIN) : firstRef (l ++ [u]) a = firstRef l a := by
  unfold firstRef
  rw [find?_append_pos _ l [u] ((any_extract_iff l a).mpr h)]

/-- Helper: the first reference of an identifier introduced by the appended
line is that line. -/
theorem firstRef_append_new (l : List String) (u : String) (a : String)
    (hE : extractASIN u = some a) (h : a ∉ l.filterMap extractASIN) :
    firstRef (l ++ [u]) a = u := by
  have hany : (l.any fun v => decide (extractASIN v = some a)) = false := by
    cases hval : (l.any fun v => decide (extractASIN v = some a))
    · rfl
    · exact absurd ((any_extract_iff l a).mp hval) h
  unfold firstRef
  rw [find?_append_neg _ l [u] hany]
  simp [List.find?_cons, hE]

/-- Helper: inextractable appended line leaves the registered identifiers
unchanged. -/
theorem extractedIds_snoc_none (l : List String) (u : String)
    (hE : extractASIN u = none) : extractedIds (l ++ [u]) = extractedIds l := by
  simp [extractedIds, List.filterMap_append, hE]

/-- Helper: an appended line whose identifier is already registered leaves the
registered identifiers unchanged. -/
theorem extractedIds_snoc_mem (l : List String) (u : String) (a : String)
    (hE : extractASIN u = some a) (h : a ∈ l.filterMap extractASIN) :
    extractedIds (l ++ [u]) = extractedIds l := by
  simp [extractedIds, List.filterMap_append, hE, firstSeenList_snoc, h]

/-- Helper: an appended line with a new identifier appends it to the
registered identifiers. -/
theorem extractedIds_snoc_new (l : List String) (u : String) (a : String)
    (hE : extractASIN u = some a) (h : a ∉ l.filterMap extractASIN) :
    extractedIds (l ++ [u]) = extractedIds l ++ [a] := by
  simp [extractedIds, List.filterMap_append, hE, firstSeenList_snoc, h]

/-- Helper: when the registered identifiers are unchanged, so is the
first-seen line table. -/
theorem specSeen_snoc_keep (l : List String) (u : String)
    (hids : extractedIds (l ++ [u]) = extractedIds l) :
    specSeen (l ++ [u]) = specSeen l := by
  unfold specSeen
  rw [hids]
  apply List.map_congr_left
  intro b hb
  have hbmem : b ∈ l.filterMap extractASIN := (mem_firstSeenList _ b).mp hb
  rw [firstLine_append_of_mem l u b hbmem]

/-- Helper: when the registered identifiers are unchanged, so is the
first-seen reference table. -/
theorem specLinks_snoc_keep (l : List String) (u : String)
    (hids : extractedIds (l ++ [u]) = extractedIds l) :
    specLinks (l ++ [u]) = specLinks l := by
  unfold specLinks
  rw [hids]
  apply List.map_congr_left
  intro b hb
  have hbmem : b ∈ l.filterMap extractASIN := (mem_firstSeenList _ b).mp hb
  rw [firstRef_append_of_mem l u b hbmem]

/-- Helper: a new identifier extends the first-seen line table with the new
1-based line number. -/
theorem specSeen_snoc_new (l : List String) (u : String) (a : String)
    (hE : extractASIN u = some a) (h : a ∉ l.filterMap extractASIN) :
    specSeen (l ++ [u]) = specSeen l ++ [(a, l.length + 1)] := by
  unfold specSeen
  rw [extractedIds_snoc_new l u a hE h, List.map_append]
  congr 1
  · apply List.map_congr_left
    intro b hb
    have hbmem : b ∈ l.filterMap extractASIN := (mem_firstSeenList _ b).mp hb
    rw [firstLine_append_of_mem l u b hbmem]
  · simp [firstLine_append_new l u a hE h]

/-- Helper: a new identifier extends the first-seen reference table with the
appended line. -/
theorem specLinks_snoc_new (l : List String) (u : String) (a : String)
    (hE : extractASIN u = some a) (h : a ∉ l.filterMap extractASIN) :
    specLinks (l ++ [u]) = specLinks l ++ [(a, u)] := by
  unfold specLinks
  rw [extractedIds_snoc_new l u a hE h, List.map_append]
  congr 1
  · apply List.map_congr_left
    intro b hb
    have hbmem : b ∈ l.filterMap extractASIN := (mem_firstSeenList _ b).mp hb
    rw [firstRef_append_of_mem l u b hbmem]
  · simp [firstRef_append_new l u a hE h]

/-- Helper: the duplicate records of a snoc input are the old records plus one
new record exactly when the appended line repeats a registered identifier. -/
theorem specDups_snoc (l : List String) (u : String) :
    specDups (l ++ [u])
      = specDups l
        ++ (match extractASIN u with
            | none => []
            | some a =>
              if (l.any fun v => decide (extractASIN v = some a)) = true
              then [(a, firstLine l a, l.length + 1)] else []) := by
  unfold specDups
  rw [List.enum_append, List.filterMap_append]
  congr 1
  · apply List.filterMap_congr
    intro p hp
    have hlt : p.1 < l.length := by
      have h := List.fst_lt_add_of_mem_enumFrom (show p ∈ List.enumFrom 0 l from hp)
      omega
    cases hEp : extractASIN p.2 with
    | none => simp [hEp]
    | some b =>
      simp only [hEp]
      rw [List.take_append_of_le_length (le_of_lt hlt)]
      by_cases hc : ((l.take p.1).any fun v => decide (extractASIN v = some b)) = true
      · have hbmem : b ∈ l.filterMap extractASIN := by
          rcases List.mem_filterMap.mp ((any_extract_iff (l.take p.1) b).mp hc) with ⟨x, hx, hxE⟩
          exact List.mem_filterMap.mpr ⟨x, List.mem_of_mem_take hx, hxE⟩
        simp [hc, firstLine_append_of_mem l u b hbmem]
      · simp [hc]
  · have henum : List.enumFrom l.length [u] = [(l.length, u)] := rfl
    rw [henum]
    cases hE : extractASIN u with
    | none => simp [hE]
    | some a =>
      have ht : (l ++ [u]).take l.length = l := List.take_left l [u]
      simp only [List.filterMap_cons, List.filterMap_nil, hE, ht]
      by_cases hc : (l.any fun v => decide (extractASIN v = some a)) = true
      · simp only [if_pos hc, firstLine_append_of_mem l u a ((any_extract_iff l a).mp hc)]
      · simp only [if_neg hc]

/-- C7: for every ordered input list, the Deduplicator's registry registers
each extractable identifier exactly once, at its first occurrence and in
first-seen order (`extractedIds`), maps it to its 1-based first-seen line
(`specSeen`) and to its first-seen reference (`specLinks`), and emits one
duplicate record per later occurrence of an already-registered identifier,
carrying the identifier, the originally-registered line number and the
current line number (`specDups`), without re-registering. -/
theorem buildRegistry_spec (lines : List String) :
    (buildRegistry lines).asins = extractedIds lines
    ∧ (buildRegistry lines).asinSeen = specSeen lines
    ∧ (buildRegistry lines).asinToLink = specLinks lines
    ∧ (buildRegistry lines).duplicates = specDups lines := by
  induction lines using List.reverseRecOn with
  | nil => exact ⟨rfl, rfl, rfl, rfl⟩
  | append_singleton l u ih =>
    obtain ⟨ih1, ih2, ih3, ih4⟩ := ih
    rw [buildRegistry_snoc]
    cases hE : extractASIN u with
    | none =>
      have hids := extractedIds_snoc_none l u hE
      refine ⟨?_, ?_, ?_, ?_⟩
      · simp only [regStep, hE]
        rw [ih1, hids]
      · simp only [regStep, hE]
        rw [ih2, specSeen_snoc_keep l u hids]
      · simp only [regStep, hE]
        rw [ih3, specLinks_snoc_keep l u hids]
      · simp only [regStep, hE]
        rw [ih4, specDups_snoc]
        simp [hE]
    | some a =>
      have hlook : lookupSeen (buildRegistry l).asinSeen a
          = if a ∈ extractedIds l then some (firstLine l a) else none := by
        rw [ih2]
        exact lookupSeen_map (firstLine l) (extractedIds l) a
      by_cases hmem : a ∈ l.filterMap extractASIN
      · have hids := extractedIds_snoc_mem l u a hE hmem
        have hmem' : a ∈ extractedIds l := (mem_firstSeenList _ a).mpr hmem
        have hlook' : lookupSeen (buildRegistry l).asinSeen a = some (firstLine l a) := by
          rw [hlook, if_pos hmem']
        refine ⟨?_, ?_, ?_, ?_⟩
        · simp only [regStep, hE, hlook']
          rw [ih1, hids]
        · simp only [regStep, hE, hlook']
          rw [ih2, specSeen_snoc_keep l u hids]
        · simp only [regStep, hE, hlook']
          rw [ih3, specLinks_snoc_keep l u hids]
        · simp only [regStep, hE, hlook']
          rw [ih4, specDups_snoc]
          simp [hE, (any_extract_iff l a).mpr hmem]
      · have hmem' : a ∉ extractedIds l := fun h => hmem ((mem_firstSeenList _ a).mp h)
        have hlook' : lookupSeen (buildRegistry l).asinSeen a = none := by
          rw [hlook, if_neg hmem']
        have hany : (l.any fun v => decide (extractASIN v = some a)) = false := by
          cases hval : (l.any fun v => decide (extractASIN v = some a))
          · rfl
          · exact absurd ((any_extract_iff l a).mp hval) hmem
        refine ⟨?_, ?_, ?_, ?_⟩
        · simp only [regStep, hE, hlook']
          rw [ih1, extractedIds_snoc_new l u a hE hmem]
        · simp only [regStep, hE, hlook']
          rw [ih2, specSeen_snoc_new l u a hE hmem]
        · simp only [regStep, hE, hlook']
          rw [ih3, specLinks_snoc_new l u a hE hmem]
        · simp only [regStep, hE, hlook']
          rw [ih4, specDups_snoc]
          simp [hE, hany]
